import Mathlib

/-!
Verification of the Conversational Session & Document-Grounded Retrieval
Engine of the `local-chat` application.

The TypeScript sources are shallowly embedded:
- strings are `List Char` (ASCII behaviour of `toLowerCase`, `\w`, `\s`
  is modelled on the character classes actually used by the code);
- JavaScript `Map`s (which preserve insertion order, and on `set` of an
  existing key keep its position) are association lists;
- JavaScript array indices in `String.prototype.slice` are `Int`s, with
  the ECMAScript clamping of negative indices modelled in `jsSliceI`;
- asynchronous streaming (`use-chat.ts`) is a small-step event machine:
  an event is a `sendMessage` synchronous prefix, an arriving token, a
  `stopGeneration` call, or the settling of the generation promise.
-/

/-- Strings from the source are embedded as lists of characters. -/
abbrev Str := List Char

/-- Embed a Lean string literal. -/
def S (s : String) : Str := s.toList

/-- Character class of JavaScript `\w` (ASCII word characters). -/
def isWordChar (c : Char) : Bool :=
  ('a' ≤ c && c ≤ 'z') || ('A' ≤ c && c ≤ 'Z') || ('0' ≤ c && c ≤ '9') || c = '_'

/-- Whitespace as recognised by `String.prototype.trim` (the characters
relevant to this code base; the full ECMAScript set also contains more
exotic Unicode spaces never produced here). -/
def isJsWs (c : Char) : Bool :=
  c = ' ' || c = '\t' || c = '\n' || c = '\r' ||
  c = '\x0b' || c = '\x0c' || c = '\u00A0' || c = '\uFEFF'

/-- `String.prototype.trim`. -/
def jsTrim (l : Str) : Str :=
  ((l.dropWhile isJsWs).reverse.dropWhile isJsWs).reverse

/-- `String.prototype.toLowerCase` (ASCII behaviour). -/
def toLowerStr (l : Str) : Str := l.map Char.toLower

/-- `haystack.includes(needle)` on strings: literal substring test. -/
def containsSub (hay pat : Str) : Bool :=
  hay.tails.any (fun t => pat.isPrefixOf t)

/-- Resolution of a possibly-negative ECMAScript slice index against a
string of length `len` (`ToIntegerOrInfinity` followed by clamping). -/
def jsIdx (len : Nat) (i : Int) : Nat :=
  if i < 0 then ((len : Int) + i).toNat else min i.toNat len

/-- `String.prototype.slice(s, e)` with possibly negative indices. -/
def jsSliceI (t : Str) (s e : Int) : Str :=
  (t.take (jsIdx t.length e)).drop (jsIdx t.length s)

/-- `text.split(sep)` for a single-character separator: empty pieces are
kept, and splitting the empty string yields `[""]`. -/
def jsSplitCh (sep : Char) : Str → List Str
  | [] => [[]]
  | c :: cs =>
    if c = sep then [] :: jsSplitCh sep cs
    else
      match jsSplitCh sep cs with
      | [] => [[c]]
      | p :: ps => (c :: p) :: ps

/-- `pieces.join(sep)`. -/
def joinWith (sep : Str) : List Str → Str
  | [] => []
  | [p] => p
  | p :: ps => p ++ sep ++ joinWith sep ps

/-- Maximal runs of word characters (accumulator holds the current run,
reversed).  `content.toLowerCase().replace(/[^\w\s]/g, ' ').split(/\s+/)`
produces exactly the maximal runs of `\w`-characters of the lower-cased
string, plus possibly empty pieces at the ends; the empty pieces are
removed by the `length > n` filters (`n ≥ 2`) applied at every call
site, so tokenisation is embedded directly as word-character runs. -/
def wordRunsAux : Str → Str → List Str
  | acc, [] => if acc.isEmpty then [] else [acc.reverse]
  | acc, c :: cs =>
    if isWordChar c then wordRunsAux (c :: acc) cs
    else if acc.isEmpty then wordRunsAux [] cs
    else acc.reverse :: wordRunsAux [] cs

/-- Tokenisation shared by the keyword index (`minLen = 3`) and the
search path (`minLen = 2`): lower-case, split into word runs, keep runs
longer than `minLen`. -/
def wordTokens (minLen : Nat) (s : Str) : List Str :=
  (wordRunsAux [] (toLowerStr s)).filter (fun w => minLen < w.length)

/-- First index at which `pat` occurs in `hay` (`String.prototype.indexOf`,
`none` for `-1`). -/
def findSub (hay pat : Str) : Option Nat :=
  (List.range (hay.length + 1)).find? (fun i => pat.isPrefixOf (hay.drop i))

/-- JavaScript `Map` as an insertion-ordered association list. -/
abbrev JsMap (α : Type) := List (Str × α)

/-- `Map.prototype.set`: replace in place if the key exists (the entry
keeps its position), otherwise append. -/
def jsSet {α : Type} (m : JsMap α) (k : Str) (v : α) : JsMap α :=
  if m.any (fun p => decide (p.1 = k)) then
    m.map (fun p => if p.1 = k then (k, v) else p)
  else m ++ [(k, v)]

/-- `Map.prototype.get` (`none` for `undefined`). -/
def jsGet {α : Type} (m : JsMap α) (k : Str) : Option α :=
  (m.find? (fun p => decide (p.1 = k))).map (·.2)

/-- The key list of a map, in insertion order. -/
def jsKeys {α : Type} (m : JsMap α) : List Str := m.map (·.1)

/-- `[...new Set(l)]`: de-duplication keeping first occurrences. -/
def jsDedup (l : List Str) : List Str :=
  l.foldl (fun acc x => if x ∈ acc then acc else acc ++ [x]) []

/-! ## `src/services/document-service.ts` -/

/-- `DocumentChunk`. -/
structure ChunkMetadata where
  source : Str
  chunkIndex : Nat
  totalChunks : Nat
deriving DecidableEq, Repr

structure DocumentChunk where
  id : Str
  content : Str
  metadata : ChunkMetadata
deriving DecidableEq, Repr

/-- The private state of a `DocumentProcessor`. -/
structure DocState where
  documents : JsMap (List DocumentChunk)
  documentIndex : JsMap (List Str)
deriving DecidableEq, Repr

/-- `isBinaryContent`: a null byte, or a fraction of non-printable
characters above 10%.  The floating-point comparison
`nonPrintableCount / content.length > 0.1` is modelled over `ℚ` (written
with the kernel-computable `mkRat`, which equals the `ℚ`-division of the
operands — see `c7_binary_classification`); for the magnitudes reachable
here the double rounding of the quotient cannot cross the threshold, and
`0 / 0 = NaN > 0.1` is false in JavaScript just as `mkRat 0 0 = 0 > 1/10`
is false in `ℚ`. -/
def nonPrintableCount (content : Str) : Nat :=
  (content.filter (fun c =>
    c.toNat < 32 && c.toNat ≠ 9 && c.toNat ≠ 10 && c.toNat ≠ 13)).length

def isBinaryContent (content : Str) : Bool :=
  if content.contains '\x00' then true
  else decide (mkRat (nonPrintableCount content) content.length > mkRat 1 10)

/-- The 1 MiB `MAX_TEXT_SIZE` cap of `splitText`. -/
def truncLimit : Nat := 1024 * 1024

/-- Truncation applied by `splitText` before chunking. -/
def jsTrunc (t : Str) : Str :=
  if truncLimit < t.length then t.take truncLimit else t

/-- `Math.max(100, Math.min(chunkSize, 5000))`. -/
def clampCs (cs : Int) : Int := max 100 (min cs 5000)

/-- `Math.max(0, Math.min(chunkOverlap, chunkSize / 2))`.  The quotient
is exact whenever the `min` selects `chunkOverlap` (the case for every
parameter set within the clamped ranges); when it clips an odd
`chunkSize` JavaScript would keep a half, which integer division floors
— no call in the claims reaches that corner. -/
def clampCo (cs co : Int) : Int := max 0 (min co (cs / 2))

/-- `Math.ceil(a / b)` on naturals. -/
def ceilN (a b : Nat) : Nat := (a + b - 1) / b

/-- The window `[start, end)` sliced at each loop iteration:
`end = Math.min(start + chunkSize, text.length)`. -/
def winEnd (t : Str) (cs : Int) (start : Int) : Int :=
  min (start + cs) (t.length : Int)

/-- The `start` value for the next iteration: `start = end - overlap`,
then the progress guard `if (start <= end - size && end < len) start = end`. -/
def nextStart (t : Str) (cs co : Int) (start : Int) : Int :=
  let e := winEnd t cs start
  if e - co ≤ e - cs ∧ e < (t.length : Int) then e else e - co

/-- The chunk-producing loop of `splitText`, with the iteration counter
turned into structural fuel (`fuel = maxIterations - iterations`): the
loop body runs while `start < text.length && iterations < maxIterations`,
pushes `chunk.trim()` when non-empty, and breaks when the updated start
reaches the end of the text. -/
def splitTextGo (t : Str) (cs co : Int) : Int → Nat → List Str
  | _, 0 => []
  | s, fuel + 1 =>
    if s < (t.length : Int) then
      let c := jsTrim (jsSliceI t s (winEnd t cs s))
      let rest :=
        if (t.length : Int) ≤ nextStart t cs co s then []
        else splitTextGo t cs co (nextStart t cs co s) fuel
      if 0 < c.length then c :: rest else rest
    else []

/-- The same loop, recording the `[start, end)` window of every body
execution (used to state coverage; `splitTextGo` is its image under
slice-and-trim, see `splitTextGo_eq_winGo`). -/
def splitWinGo (t : Str) (cs co : Int) : Int → Nat → List (Int × Int)
  | _, 0 => []
  | s, fuel + 1 =>
    if s < (t.length : Int) then
      (s, winEnd t cs s) ::
        (if (t.length : Int) ≤ nextStart t cs co s then []
         else splitWinGo t cs co (nextStart t cs co s) fuel)
    else []

/-- `splitText(text, chunkSize, chunkOverlap)`. -/
def splitText (text : Str) (cs0 co0 : Int) : List Str :=
  if text.length = 0 then []
  else
    let t := jsTrunc text
    let cs := clampCs cs0
    let co := clampCo cs co0
    let mi := ceilN t.length (cs - co).toNat + 10
    (splitTextGo t cs co 0 mi).filter (fun c => 0 < c.length)

/-- The windows visited by `splitText` (one per loop-body execution). -/
def splitWindows (text : Str) (cs0 co0 : Int) : List (Int × Int) :=
  if text.length = 0 then []
  else
    let t := jsTrunc text
    let cs := clampCs cs0
    let co := clampCo cs co0
    let mi := ceilN t.length (cs - co).toNat + 10
    splitWinGo t cs co 0 mi

/-- Chunk records built by `processDocument` from raw segments. -/
def mkChunks (fileName : Str) (chunks : List Str) : List DocumentChunk :=
  chunks.enum.map (fun p =>
    { id := fileName ++ S "-chunk-" ++ (Nat.repr p.1).toList
      content := p.2
      metadata := { source := fileName, chunkIndex := p.1, totalChunks := chunks.length } })

/-- The type-specific chunking policy of `processDocument` for
non-binary content. -/
def deriveChunks (text : Str) : List Str :=
  if (S "IMAGE_FILE:").isPrefixOf text then
    [joinWith (S "\n") ((jsSplitCh '\n' text).take 5) ++
      S "\n[Base64 image data available for vision models]"]
  else if (S "BINARY_FILE:").isPrefixOf text then [text]
  else if (S "DOCUMENT_FILE:").isPrefixOf text then
    match findSub text (S "Content:\n") with
    | some cStart =>
      let metadata := text.take (cStart + 9)
      let actualContent := text.drop (cStart + 9)
      let maxChunkSize := min 1000 (max 500 (actualContent.length / 50))
      (splitText actualContent (maxChunkSize : Int) 200).enum.map
        (fun p => if p.1 = 0 then metadata ++ p.2 else p.2)
    | none => splitText text 1000 200
  else splitText text 1000 200

/-- The chunk list `processDocument(fileName, content)` derives: the
binary short-circuit (a single reference chunk), else `deriveChunks`. -/
def mkDocChunks (fileName content : Str) : List DocumentChunk :=
  if isBinaryContent content then
    [{ id := fileName ++ S "-chunk-0"
       content := S "File: " ++ fileName ++ S " (binary content - not processed for text search)"
       metadata := { source := fileName, chunkIndex := 0, totalChunks := 1 } }]
  else mkChunks fileName (deriveChunks content)

/-- `buildSimpleIndex`: per-chunk tokens longer than 3 characters,
de-duplicated with first occurrences kept. -/
def buildSimpleIndex (chunks : List DocumentChunk) : List Str :=
  jsDedup ((chunks.map (fun c => wordTokens 3 c.content)).flatten)

/-- `processDocument`: throws (`none`) on empty content, otherwise
stores the derived chunks and the keyword index entry for the source
and returns the chunks. -/
def processDocument (fileName content : Str) (st : DocState) :
    Option (DocState × List DocumentChunk) :=
  if content = [] then none
  else
    let dcs := mkDocChunks fileName content
    some ({ documents := jsSet st.documents fileName dcs
            documentIndex := jsSet st.documentIndex fileName (buildSimpleIndex dcs) }, dcs)

/-- The per-chunk score of `searchDocuments`: one point for every entry
of the query-token list that occurs as a substring of the lower-cased
chunk text. -/
def chunkScore (queryWords : List Str) (c : DocumentChunk) : Nat :=
  queryWords.countP (fun w => containsSub (toLowerStr c.content) w)

/-- The scored result list, in encounter order (files in store insertion
order, chunks in list order), keeping only positive scores.  The
`documentIndex` lookup of the source loop is dead code (its `keywords`
binding is never read) and does not appear. -/
def scoredResults (st : DocState) (queryWords : List Str) :
    List (DocumentChunk × Nat) :=
  (st.documents.map (fun e =>
    e.2.filterMap (fun ch =>
      let score := chunkScore queryWords ch
      if 0 < score then some (ch, score) else none))).flatten

/-- Stable insertion of a scored chunk into a descending-by-score list:
it moves past strictly greater scores only, so earlier elements with an
equal score stay in front. -/
def insertScored (x : DocumentChunk × Nat) :
    List (DocumentChunk × Nat) → List (DocumentChunk × Nat)
  | [] => [x]
  | y :: ys => if x.2 < y.2 then y :: insertScored x ys else x :: y :: ys

/-- The stable descending sort performed by
`results.sort((a, b) => b.score - a.score)` (ECMAScript sorts are
stable; any stable sort on this comparator computes this function). -/
def sortScored : List (DocumentChunk × Nat) → List (DocumentChunk × Nat)
  | [] => []
  | x :: xs => insertScored x (sortScored xs)

/-- `searchDocuments(query, k)`. -/
def searchDocuments (st : DocState) (query : Str) (k : Nat) : List DocumentChunk :=
  ((sortScored (scoredResults st (wordTokens 2 query))).take k).map (·.1)

/-! ## `src/services/document-context.ts` -/

/-- `ImageRegistryEntry`.  `Date` timestamps are opaque strings here:
the code only ever formats them (`toLocaleString`), never compares
them, on the paths the claims touch. -/
structure ImageRegistryEntry where
  fileName : Str
  content : Str
  timestamp : Str
  promptId : Option Str
deriving DecidableEq, Repr

/-- `DocumentContext` (the per-prompt record). -/
structure PromptDocsContext where
  promptId : Str
  documents : List Str
  timestamp : Str
deriving DecidableEq, Repr

/-- The private state of the `DocumentContextManager`. -/
structure DcmState where
  promptContexts : JsMap PromptDocsContext
  globalImageRegistry : JsMap ImageRegistryEntry
  currentPromptId : Option Str
deriving DecidableEq, Repr

/-- `isDescribeAllImagesQuery`. -/
def isDescribeAllImagesQuery (query : Str) : Bool :=
  let lowerQuery := toLowerStr query
  containsSub lowerQuery (S "describe all images") ||
  containsSub lowerQuery (S "describe all the images") ||
  containsSub lowerQuery (S "describe all uploaded images") ||
  containsSub lowerQuery (S "describe every image") ||
  (containsSub lowerQuery (S "describe") && containsSub lowerQuery (S "image") &&
    (containsSub lowerQuery (S "all") || containsSub lowerQuery (S "every")))

/-- The image-extension test
`fileName.toLowerCase().match(/\.(jpg|jpeg|png|gif|webp|svg)$/)`. -/
def imageExtensions : List Str :=
  [S ".jpg", S ".jpeg", S ".png", S ".gif", S ".webp", S ".svg"]

def hasImageExtension (fileName : Str) : Bool :=
  imageExtensions.any (fun ext => ext.isSuffixOf (toLowerStr fileName))

/-- The sentinel returned when the global registry is empty. -/
def noImagesSentinel : Str := S "No images have been uploaded yet."

/-- `getDocumentContext(query, promptId?)`.  The processor singleton's
state is an explicit argument.  `promptId ?? this.currentPromptId` only
falls through on `undefined`/`null`, so an explicitly passed empty
string stays as the target; the guard `if (!targetPromptId) return ""`
is a falsiness test and therefore fires both when the resolved target
is absent and when it is the empty string.  `searchDocuments` cannot
throw in the embedding, so the `try`/`catch` around the per-document
loop is the identity. -/
def getDocumentContext (query : Str) (promptId : Option Str)
    (st : DcmState) (proc : DocState) : Str :=
  let targetPromptId := match promptId with
    | some p => some p
    | none => st.currentPromptId
  match targetPromptId with
  | none => []
  | some tpid =>
    if tpid = [] then []
    else if isDescribeAllImagesQuery query then
      let allImages := st.globalImageRegistry.map (·.2)
      if allImages.length = 0 then noImagesSentinel
      else
        S "All uploaded images:\n" ++
          joinWith (S "\n") (allImages.map (fun img =>
            S "Image: " ++ img.fileName ++ S " (uploaded " ++ img.timestamp ++ S ")"))
    else
      let documents := match jsGet st.promptContexts tpid with
        | some c => c.documents
        | none => []
      let relevantChunks := (documents.map (fun fileName =>
        if hasImageExtension fileName then
          match jsGet st.globalImageRegistry fileName with
          | some entry => [entry.content]
          | none => []
        else
          ((searchDocuments proc query 3).filter
            (fun ch => decide (ch.metadata.source = fileName))).map (·.content))).flatten
      if relevantChunks.length = 0 then []
      else
        S "Relevant context from uploaded documents:\n" ++
          joinWith (S "\n\n---\n\n") relevantChunks

/-! ## `src/hooks/use-chat.ts` -/

inductive Role where
  | user
  | assistant
deriving DecidableEq, Repr

/-- A file descriptor as passed into `sendMessage`. -/
structure FileDesc where
  id : Str
  name : Str
  type : Str
  size : Option Str
deriving DecidableEq, Repr

/-- A file descriptor attached to a message (after `getFileIcon`). -/
structure MsgFile where
  id : Str
  name : Str
  type : Str
  size : Option Str
  icon : Option Str
deriving DecidableEq, Repr

/-- `Message`.  The absent optional `isStreaming` field of user
messages is modelled as `false`. -/
structure Message where
  id : Str
  role : Role
  content : Str
  timestamp : Str
  isStreaming : Bool
  files : Option (List MsgFile)
deriving DecidableEq, Repr

/-- `Chat`. -/
structure Chat where
  id : Str
  title : Str
  messages : List Message
  model : Str
  createdAt : Str
  updatedAt : Str
deriving DecidableEq, Repr

/-- The closure state of one `sendMessage` invocation: its
`AbortController` (as a numeric handle), the target chat, the
placeholder assistant message id, and the `fullResponse` accumulator. -/
structure GenRec where
  handle : Nat
  chatId : Str
  msgId : Str
  acc : Str
deriving DecidableEq, Repr

/-- The state of the `useChat` hook.  `aborted` is the set of handles
whose `AbortController.abort()` has been called (a signal, once
aborted, stays aborted). -/
structure ChatSt where
  chats : List Chat
  activeChat : Option Str
  isGenerating : Bool
  current : Option Nat
  aborted : List Nat
  gens : List GenRec
deriving DecidableEq, Repr

/-- `getFileIcon(type, name)`. -/
def getFileIcon (type name : Str) : Str :=
  if (S "image/").isPrefixOf type then S "🖼️"
  else if (S "audio/").isPrefixOf type then S "🎵"
  else if (S "video/").isPrefixOf type then S "🎥"
  else if type = S "application/pdf" then S "📄"
  else if type = S "application/json" then S "📋"
  else if (S ".md").isSuffixOf name then S "📝"
  else if (S ".py").isSuffixOf name then S "🐍"
  else if (S ".js").isSuffixOf name || (S ".ts").isSuffixOf name then S "⚡"
  else if (S ".html").isSuffixOf name then S "🌐"
  else if (S ".css").isSuffixOf name then S "🎨"
  else if (S ".csv").isSuffixOf name then S "📊"
  else if (S ".sql").isSuffixOf name then S "🗄️"
  else S "📄"

/-- `generateTitle(content)`: first six pieces of
`content.trim().split(" ")`, with `"..."` appended when the slice has
exactly six elements (that is, when there were at least six pieces). -/
def generateTitle (content : Str) : Str :=
  let words := (jsSplitCh ' ' (jsTrim content)).take 6
  joinWith (S " ") words ++ (if words.length = 6 then S "..." else [])

/-- `stopGeneration()`: aborts and discards the current controller and
clears `isGenerating`; a no-op when no controller is set.  Note that it
does not touch `chats` — in particular it does not clear any message's
`isStreaming` flag. -/
def stopGeneration (st : ChatSt) : ChatSt :=
  match st.current with
  | some h => { st with aborted := h :: st.aborted, current := none, isGenerating := false }
  | none => st

/-- The fixed apology string of the error path. -/
def apologyMessage : Str :=
  S "Sorry, I encountered an error while generating a response. Please make sure Ollama is running and try again."

/-- The synchronous prefix of `sendMessage(content, model,
initialResponse?, files?)`, up to the invocation of
`enhancedChatService.streamMessage`: the guard, `stopGeneration()`,
chat lookup/creation, appending the user message and the streaming
placeholder (with the title rule), `setIsGenerating(true)` and the
fresh `AbortController`.  Randomly generated ids (`generateId`) and
timestamps (`new Date().toISOString()`) are inputs.  The
document-context retrieval awaited in between only feeds the prompt
sent to the model; it does not mutate this hook's state and is
verified separately against `getDocumentContext`. -/
def sendStart (st : ChatSt) (content model : Str) (initialResponse : Option Str)
    (files : Option (List FileDesc)) (uid aid newChatId : Str) (h : Nat)
    (now : Str) : ChatSt :=
  if jsTrim content = [] ∨ model = [] then st
  else
    let st1 := stopGeneration st
    let targetChat := st.chats.find? (fun c => decide (some c.id = st.activeChat))
    let chatId := match targetChat with
      | some c => c.id
      | none => newChatId
    let st2 := match targetChat with
      | some _ => st1
      | none =>
        let newTitle := generateTitle content
        let newChat : Chat :=
          { id := newChatId
            title := if newTitle = [] then S "New Chat" else newTitle
            messages := []
            model := model
            createdAt := now
            updatedAt := now }
        { st1 with chats := newChat :: st1.chats, activeChat := some newChatId }
    let filesWithIcons := files.map (List.map (fun f =>
      ({ id := f.id, name := f.name, type := f.type, size := f.size
         icon := some (getFileIcon f.type f.name) } : MsgFile)))
    let userMessage : Message :=
      { id := uid, role := .user, content := jsTrim content, timestamp := now
        isStreaming := false, files := filesWithIcons }
    let assistantMessage : Message :=
      { id := aid, role := .assistant, content := initialResponse.getD []
        timestamp := now, isStreaming := true, files := none }
    { st2 with
      chats := st2.chats.map (fun chat =>
        if chat.id = chatId then
          { chat with
            messages := chat.messages ++ [userMessage, assistantMessage]
            model := model
            updatedAt := now
            title := if chat.messages.length = 0 then generateTitle content else chat.title }
        else chat)
      isGenerating := true
      current := some h
      gens := st2.gens ++ [{ handle := h, chatId := chatId, msgId := aid
                             acc := initialResponse.getD [] }] }

/-- The `onToken` callback of `sendMessage`: a no-op once the
generation's controller is aborted, otherwise it extends
`fullResponse` and rewrites the placeholder message's content. -/
def tokStep (st : ChatSt) (h : Nat) (chunk now : Str) : ChatSt :=
  match st.gens.find? (fun g => decide (g.handle = h)) with
  | none => st
  | some g =>
    if h ∈ st.aborted then st
    else
      let acc' := g.acc ++ chunk
      { st with
        gens := st.gens.map (fun g' =>
          if g'.handle = h then { g' with acc := acc' } else g')
        chats := st.chats.map (fun chat =>
          if chat.id = g.chatId then
            { chat with
              messages := chat.messages.map (fun msg =>
                if msg.id = g.msgId then { msg with content := acc' } else msg)
              updatedAt := now }
          else chat) }

/-- The common message-finalising `setChats` of the success and error
paths: rewrite the placeholder's content and clear its streaming
flag. -/
def finalizeMsg (st : ChatSt) (g : GenRec) (content now : Str) : ChatSt :=
  { st with
    chats := st.chats.map (fun chat =>
      if chat.id = g.chatId then
        { chat with
          messages := chat.messages.map (fun msg =>
            if msg.id = g.msgId then
              { msg with content := content, isStreaming := false }
            else msg)
          updatedAt := now }
      else chat) }

/-- The settling of the `streamMessage` promise (`resp = none` models a
rejected promise).  A resolved but empty response, or one containing
the substring `"Error"`, is thrown and lands in the same `catch` as a
rejection, writing the apology; otherwise the success path writes
`fullResponse || response || ""`.  The `finally` clause clears
`isGenerating` and the current controller unconditionally. -/
def settleStep (st : ChatSt) (h : Nat) (resp : Option Str) (now : Str) : ChatSt :=
  match st.gens.find? (fun g => decide (g.handle = h)) with
  | none => st
  | some g =>
    let st' := match resp with
      | some r =>
        if r = [] ∨ containsSub r (S "Error") = true then
          finalizeMsg st g apologyMessage now
        else
          finalizeMsg st g (if g.acc = [] then r else g.acc) now
      | none => finalizeMsg st g apologyMessage now
    { st' with isGenerating := false, current := none }

/-- The observable events of the session controller. -/
inductive ChatEv where
  | send (content model : Str) (initialResponse : Option Str)
      (files : Option (List FileDesc)) (uid aid newChatId : Str) (h : Nat) (now : Str)
  | stop
  | tok (h : Nat) (chunk now : Str)
  | settle (h : Nat) (resp : Option Str) (now : Str)

def stepEv (st : ChatSt) : ChatEv → ChatSt
  | .send content model ir fs uid aid cid h now =>
      sendStart st content model ir fs uid aid cid h now
  | .stop => stopGeneration st
  | .tok h chunk now => tokStep st h chunk now
  | .settle h resp now => settleStep st h resp now

/-- Run an arbitrary interleaving of events. -/
def runEvs (st : ChatSt) (evs : List ChatEv) : ChatSt := evs.foldl stepEv st

/-! ## Derived specification predicates and concrete scenario states -/

/-- The single reference chunk produced for binary content. -/
def binaryRefChunk (fileName : Str) : DocumentChunk :=
  { id := fileName ++ S "-chunk-0"
    content := S "File: " ++ fileName ++ S " (binary content - not processed for text search)"
    metadata := { source := fileName, chunkIndex := 0, totalChunks := 1 } }

/-- Coverage: every non-whitespace character position of the input lies
in some window visited by `splitText`, and that window's trimmed slice
is among the returned segments. -/
def coversInput (text : Str) (cs co : Int) : Prop :=
  ∀ i : Nat, i < text.length → isJsWs (text.getD i ' ') = false →
    ∃ w ∈ splitWindows text cs co, 0 ≤ w.1 ∧ w.1 ≤ (i : Int) ∧ (i : Int) < w.2 ∧
      jsTrim (jsSliceI (jsTrunc text) w.1 w.2) ∈ splitText text cs co

/-- An input one character longer than the truncation cap. -/
def overLimitText : Str := List.replicate (truncLimit + 1) 'a'

/-- C5 scenario: the spec's worked example. -/
def c5Content : Str := S "The quick brown fox jumps"

def c5SplitChunks : List Str := splitText c5Content 10 2

def c5Chunks : List DocumentChunk := mkChunks (S "notes.md") c5SplitChunks

def c5Store : DocState :=
  { documents := [(S "notes.md", c5Chunks)]
    documentIndex := [(S "notes.md", buildSimpleIndex c5Chunks)] }

/-- C2 witness store: two sources, three chunks. -/
def c2Chunk (src : Str) (i : Nat) (content : Str) : DocumentChunk :=
  { id := src ++ S "-chunk-" ++ (Nat.repr i).toList
    content := content
    metadata := { source := src, chunkIndex := i, totalChunks := 2 } }

def c2Store : DocState :=
  { documents :=
      [(S "a.md", [c2Chunk (S "a.md") 0 (S "the red fox runs"), c2Chunk (S "a.md") 1 (S "nothing here")]),
       (S "b.md", [c2Chunk (S "b.md") 0 (S "a fox and a dog")])]
    documentIndex := [] }

/-- C3 witness: two successive ingests of the same source name. -/
def c3St1 : DocState :=
  match processDocument (S "a.txt") (S "hi") { documents := [], documentIndex := [] } with
  | some p => p.1
  | none => { documents := [], documentIndex := [] }

def c3Chunks1 : List DocumentChunk :=
  match processDocument (S "a.txt") (S "hi") { documents := [], documentIndex := [] } with
  | some p => p.2
  | none => []

def c3St2 : DocState :=
  match processDocument (S "a.txt") (S "yo") c3St1 with
  | some p => p.1
  | none => { documents := [], documentIndex := [] }

def c3Chunks2 : List DocumentChunk :=
  match processDocument (S "a.txt") (S "yo") c3St1 with
  | some p => p.2
  | none => []

/-- A chat session whose placeholder assistant message is streaming and
whose generation (handle 3) is in flight. -/
def c1Placeholder : Message :=
  { id := S "m2", role := .assistant, content := [], timestamp := S "t0"
    isStreaming := true, files := none }

def c1Chat : Chat :=
  { id := S "c", title := S "T", messages := [c1Placeholder], model := S "mdl"
    createdAt := S "t0", updatedAt := S "t0" }

def c1St : ChatSt :=
  { chats := [c1Chat], activeChat := some (S "c"), isGenerating := true
    current := some 3, aborted := [], gens := [{ handle := 3, chatId := S "c", msgId := S "m2", acc := [] }] }

/-- The same session after handle 3 has been aborted. -/
def c1AbortedSt : ChatSt :=
  { c1St with current := none, isGenerating := false, aborted := [3] }

/-- C8: the empty hook state. -/
def c8St0 : ChatSt :=
  { chats := [], activeChat := none, isGenerating := false
    current := none, aborted := [], gens := [] }

/-- C8: a state holding a chat that already has one message. -/
def c8OldChat : Chat :=
  { id := S "c0", title := S "Old title", model := S "mdl"
    messages := [{ id := S "m0", role := .user, content := S "hello"
                   timestamp := S "t0", isStreaming := false, files := none }]
    createdAt := S "t0", updatedAt := S "t0" }

def c8St1 : ChatSt :=
  { chats := [c8OldChat], activeChat := some (S "c0"), isGenerating := false
    current := none, aborted := [], gens := [] }

/-- C10: a session mid-stream on handle 7. -/
def c10St : ChatSt :=
  { chats := [{ id := S "c", title := S "T"
                messages := [{ id := S "m1", role := .assistant, content := S "partial"
                               timestamp := S "t0", isStreaming := true, files := none }]
                model := S "mdl", createdAt := S "t0", updatedAt := S "t0" }]
    activeChat := some (S "c"), isGenerating := true, current := some 7
    aborted := [], gens := [{ handle := 7, chatId := S "c", msgId := S "m1", acc := S "partial" }] }

/-- A legitimate model answer that merely mentions the word "Error". -/
def c10Resp : Str := S "The Error code you saw means the port is busy."

def c10After : ChatSt := settleStep c10St 7 (some c10Resp) (S "t2")

def dfltChat : Chat :=
  { id := [], title := [], messages := [], model := [], createdAt := [], updatedAt := [] }

def dfltMsg : Message :=
  { id := [], role := .user, content := [], timestamp := [], isStreaming := false, files := none }

def c10ChatAfter : Chat := c10After.chats.getD 0 dfltChat

def c10MsgAfter : Message := c10ChatAfter.messages.getD 0 dfltMsg

/-! ## Association-list (JavaScript `Map`) lemmas -/

theorem jsGet_map_set {α : Type} (m : JsMap α) (k : Str) (v : α)
    (h : m.any (fun p => decide (p.1 = k)) = true) :
    jsGet (m.map (fun p => if p.1 = k then (k, v) else p)) k = some v := by
  induction m with
  | nil => simp at h
  | cons p ps ih =>
    by_cases hp : p.1 = k
    · unfold jsGet
      rw [List.map_cons, if_pos hp, List.find?_cons_of_pos _ (by simp)]
      rfl
    · unfold jsGet at ih ⊢
      rw [List.map_cons, if_neg hp, List.find?_cons_of_neg _ (by simpa using hp)]
      apply ih
      rw [List.any_cons] at h
      rcases (Bool.or_eq_true _ _).mp h with h1 | h2
      · exact absurd (of_decide_eq_true h1) hp
      · exact h2

theorem jsGet_append_single {α : Type} (m : JsMap α) (k : Str) (v : α)
    (h : m.any (fun p => decide (p.1 = k)) = false) :
    jsGet (m ++ [(k, v)]) k = some v := by
  induction m with
  | nil =>
    unfold jsGet
    rw [List.nil_append, List.find?_cons_of_pos _ (by simp)]
    rfl
  | cons p ps ih =>
    rw [List.any_cons, Bool.or_eq_false_iff] at h
    unfold jsGet at ih ⊢
    rw [List.cons_append, List.find?_cons_of_neg _ (by simp [of_decide_eq_false h.1])]
    exact ih h.2

theorem jsGet_jsSet_self {α : Type} (m : JsMap α) (k : Str) (v : α) :
    jsGet (jsSet m k v) k = some v := by
  unfold jsSet
  by_cases hA : m.any (fun p => decide (p.1 = k)) = true
  · rw [if_pos hA]
    exact jsGet_map_set m k v hA
  · rw [if_neg hA]
    exact jsGet_append_single m k v (Bool.eq_false_iff.mpr hA)

theorem jsKeys_jsSet_of_any {α : Type} (m : JsMap α) (k : Str) (v : α)
    (h : m.any (fun p => decide (p.1 = k)) = true) :
    jsKeys (jsSet m k v) = jsKeys m := by
  unfold jsSet jsKeys
  rw [if_pos h, List.map_map]
  apply List.map_congr_left
  intro p _hp
  by_cases hp : p.1 = k <;> simp [hp]

theorem any_jsSet_self {α : Type} (m : JsMap α) (k : Str) (v : α) :
    (jsSet m k v).any (fun p => decide (p.1 = k)) = true := by
  unfold jsSet
  by_cases hA : m.any (fun p => decide (p.1 = k)) = true
  · rw [if_pos hA]
    obtain ⟨p, hp, hpk⟩ := List.any_eq_true.mp hA
    refine List.any_eq_true.mpr ⟨(k, v), List.mem_map.mpr ⟨p, hp, ?_⟩, by simp⟩
    simp [of_decide_eq_true hpk]
  · rw [if_neg hA]
    simp [List.any_append]

/-- Inversion of a successful `processDocument` call. -/
theorem processDocument_eq {a content : Str} {st st' : DocState}
    {cs' : List DocumentChunk}
    (h : processDocument a content st = some (st', cs')) :
    content ≠ [] ∧
    st' = { documents := jsSet st.documents a (mkDocChunks a content)
            documentIndex := jsSet st.documentIndex a (buildSimpleIndex (mkDocChunks a content)) } ∧
    cs' = mkDocChunks a content := by
  by_cases hx : content = []
  · simp [processDocument, hx] at h
  · refine ⟨hx, ?_, ?_⟩ <;>
    · simp only [processDocument, if_neg hx, Option.some.injEq, Prod.mk.injEq] at h
      tauto

/-- C3: re-ingesting an already-present source name wholesale replaces
its chunk list and its keyword index entry: after a successful
`processDocument(a, x)` followed by a successful `processDocument(a, y)`,
the store's entry and index entry for `a` are exactly those derived from
`y`, and the key lists (hence the set of stored source names) of both
maps are unchanged by the second ingest. -/
theorem c3_reingest_replaces (st st1 st2 : DocState) (a x y : Str)
    (c1 c2 : List DocumentChunk)
    (h1 : processDocument a x st = some (st1, c1))
    (h2 : processDocument a y st1 = some (st2, c2)) :
    jsGet st2.documents a = some c2 ∧
    c2 = mkDocChunks a y ∧
    jsGet st2.documentIndex a = some (buildSimpleIndex (mkDocChunks a y)) ∧
    jsKeys st2.documents = jsKeys st1.documents ∧
    jsKeys st2.documentIndex = jsKeys st1.documentIndex := by
  obtain ⟨hx, hst1, hc1⟩ := processDocument_eq h1
  obtain ⟨hy, hst2, hc2⟩ := processDocument_eq h2
  subst hst1 hst2 hc1 hc2
  refine ⟨jsGet_jsSet_self _ _ _, rfl, jsGet_jsSet_self _ _ _, ?_, ?_⟩
  · exact jsKeys_jsSet_of_any _ _ _ (any_jsSet_self _ _ _)
  · exact jsKeys_jsSet_of_any _ _ _ (any_jsSet_self _ _ _)

/-- Witness for C3 at a concrete pair of ingests. -/
theorem c3_reingest_replaces_witness :
    jsGet c3St2.documents (S "a.txt") = some c3Chunks2 ∧
    c3Chunks2 = mkDocChunks (S "a.txt") (S "yo") ∧
    jsGet c3St2.documentIndex (S "a.txt") =
      some (buildSimpleIndex (mkDocChunks (S "a.txt") (S "yo"))) ∧
    jsKeys c3St2.documents = jsKeys c3St1.documents ∧
    jsKeys c3St2.documentIndex = jsKeys c3St1.documentIndex :=
  c3_reingest_replaces { documents := [], documentIndex := [] } c3St1 c3St2
    (S "a.txt") (S "hi") (S "yo") c3Chunks1 c3Chunks2 (by decide) (by decide)

/-- The rational threshold test of `isBinaryContent`, characterised as
an integer comparison (for non-empty content). -/
theorem binary_threshold_iff (content : Str) (h : content ≠ []) :
    (mkRat (nonPrintableCount content) content.length > mkRat 1 10) ↔
      content.length < 10 * nonPrintableCount content := by
  have hlen : 0 < content.length := List.length_pos.mpr h
  rw [Rat.mkRat_eq_div, Rat.mkRat_eq_div, gt_iff_lt,
    div_lt_div_iff₀ (by norm_num) (by exact_mod_cast hlen)]
  push_cast
  rw [one_mul, mul_comm]
  exact_mod_cast Iff.rfl

/-- The same threshold, written with the `ℚ`-division of the source
formula. -/
theorem binary_threshold_div_iff (content : Str) (h : content ≠ []) :
    ((nonPrintableCount content : ℚ) / (content.length : ℚ) > 1 / 10) ↔
      content.length < 10 * nonPrintableCount content := by
  have hlen : 0 < content.length := List.length_pos.mpr h
  rw [gt_iff_lt, div_lt_div_iff₀ (by norm_num) (by exact_mod_cast hlen), one_mul,
    mul_comm]
  exact_mod_cast Iff.rfl

/-- C7: for non-empty content, `processDocument` short-circuits to the
single reference chunk (chunkIndex 0, totalChunks 1) exactly when the
content contains a null byte or strictly more than 10% of its characters
are non-printable (code below 32, excluding 9, 10 and 13); content at or
below the threshold with no null byte is not classified as binary. -/
theorem c7_binary_classification (fileName content : Str) (st : DocState)
    (h : content ≠ []) :
    (isBinaryContent content = true ↔
      (content.contains '\x00' = true ∨
        (nonPrintableCount content : ℚ) / (content.length : ℚ) > 1 / 10)) ∧
    (isBinaryContent content = true ↔
      (content.contains '\x00' = true ∨
        content.length < 10 * nonPrintableCount content)) ∧
    (isBinaryContent content = true →
      ∃ st', processDocument fileName content st = some (st', [binaryRefChunk fileName])) := by
  have key := binary_threshold_iff content h
  have key2 := binary_threshold_div_iff content h
  have part2 : isBinaryContent content = true ↔
      (content.contains '\x00' = true ∨
        content.length < 10 * nonPrintableCount content) := by
    by_cases hz : content.contains '\x00' = true
    · simp only [isBinaryContent, if_pos hz, true_iff]
      exact Or.inl hz
    · rw [isBinaryContent, if_neg hz, decide_eq_true_eq, key]
      exact ⟨Or.inr, fun hor => hor.resolve_left (fun hc => hz hc)⟩
  refine ⟨?_, part2, ?_⟩
  · rw [part2]
    exact or_congr_right key2.symm
  · intro hb
    have hch : mkDocChunks fileName content = [binaryRefChunk fileName] := by
      rw [mkDocChunks, if_pos hb]
      rfl
    refine ⟨{ documents := jsSet st.documents fileName [binaryRefChunk fileName]
              documentIndex := jsSet st.documentIndex fileName
                (buildSimpleIndex [binaryRefChunk fileName]) }, ?_⟩
    simp only [processDocument, if_neg h, hch]

/-- Witness for C7: a one-character control payload is classified
binary and short-circuited. -/
theorem c7_binary_classification_witness :
    (isBinaryContent ['\x01'] = true ↔
      (['\x01'].contains '\x00' = true ∨
        (nonPrintableCount ['\x01'] : ℚ) / ((['\x01'] : Str).length : ℚ) > 1 / 10)) ∧
    (isBinaryContent ['\x01'] = true ↔
      (['\x01'].contains '\x00' = true ∨
        (['\x01'] : Str).length < 10 * nonPrintableCount ['\x01'])) ∧
    (isBinaryContent ['\x01'] = true →
      ∃ st', processDocument (S "f") ['\x01'] { documents := [], documentIndex := [] } =
        some (st', [binaryRefChunk (S "f")])) :=
  c7_binary_classification (S "f") ['\x01'] { documents := [], documentIndex := [] }
    (by decide)

/-- C5 as stated is false: with chunk size 10 (clamped up to 100) and
overlap 2, the example text is not split into chunks of at most 10
characters — the first chunk is the whole 25-character content. -/
theorem c5_counterexample :
    ¬ (3 ≤ c5SplitChunks.length ∧ ∀ c ∈ c5SplitChunks, c.length ≤ 10) := by
  decide

/-- C5 amended: chunk size 10 is clamped to 100, so the whole trimmed
25-character content is one chunk (longer than 10 characters); the loop
then stalls at the tail and pushes ten copies of the 2-character tail
"ps", giving 11 chunks in total.  `searchDocuments("fox", 5)` on the
resulting store returns exactly the whole-content chunk (score 1) and
excludes every chunk that does not contain "fox". -/
theorem c5_amended :
    c5SplitChunks = c5Content :: List.replicate 10 (S "ps") ∧
    3 ≤ c5SplitChunks.length ∧
    (∃ c ∈ c5SplitChunks, 10 < c.length) ∧
    searchDocuments c5Store (S "fox") 5 =
      [{ id := S "notes.md-chunk-0", content := c5Content
         metadata := { source := S "notes.md", chunkIndex := 0, totalChunks := 11 } }] ∧
    (∀ c ∈ searchDocuments c5Store (S "fox") 5,
      containsSub (toLowerStr c.content) (S "fox") = true ∧
      1 ≤ chunkScore (wordTokens 2 (S "fox")) c) ∧
    (∀ c ∈ c5Chunks, containsSub (toLowerStr c.content) (S "fox") = false →
      c ∉ searchDocuments c5Store (S "fox") 5) := by
  decide

set_option maxRecDepth 40000 in
/-- C9: on a 1500-character input with chunk size 1000 and overlap 200
(inside the clamped ranges) the loop stalls at position 1300 = L −
overlap after reaching the end, re-pushing the 200-character tail on
every remaining iteration until the `maxIterations` bound
(⌈1500/800⌉ + 10 = 12) fires: the output contains the tail segment ten
times, is not duplicate-free, and its length equals the iteration
bound. -/
theorem c9_duplicate_tail :
    splitText (List.replicate 1500 'a') 1000 200 =
      [List.replicate 1000 'a', List.replicate 700 'a'] ++
        List.replicate 10 (List.replicate 200 'a') ∧
    ¬ (splitText (List.replicate 1500 'a') 1000 200).Nodup ∧
    (splitText (List.replicate 1500 'a') 1000 200).count (List.replicate 200 'a') = 10 ∧
    (splitText (List.replicate 1500 'a') 1000 200).length = ceilN 1500 800 + 10 := by
  refine ⟨by decide, by decide, by decide, by decide⟩

/-- C6 as stated is false: when no prompt id is supplied and no current
prompt exists, `getDocumentContext` returns the empty string before the
describe-all-images special case is ever consulted, not the sentinel. -/
theorem c6_counterexample :
    isDescribeAllImagesQuery (S "describe all images") = true ∧
    getDocumentContext (S "describe all images") none
      { promptContexts := [], globalImageRegistry := [], currentPromptId := none }
      { documents := [], documentIndex := [] } = [] ∧
    ([] : Str) ≠ noImagesSentinel := by
  refine ⟨by decide, by decide, by decide⟩

/-- C6 amended: provided a non-empty target prompt id exists (the
explicit `promptId` argument, or otherwise the current prompt id,
resolving to a non-empty string — the source's `!targetPromptId` guard
also fires on an empty string), every query matched by the
describe-all-images patterns is answered from the global image registry
alone — one line per registered image, in registry insertion order,
independent of the prompt-context map, of the document store and of
which target prompt was picked — with the sentinel returned when the
registry is empty. -/
theorem c6_all_images_from_registry (query : Str) (promptId : Option Str)
    (st : DcmState) (proc : DocState) (tpid : Str)
    (hq : isDescribeAllImagesQuery query = true)
    (ht : (match promptId with | some p => some p | none => st.currentPromptId) = some tpid)
    (htne : tpid ≠ []) :
    getDocumentContext query promptId st proc =
      (if st.globalImageRegistry.length = 0 then noImagesSentinel
       else S "All uploaded images:\n" ++
         joinWith (S "\n") (st.globalImageRegistry.map (fun e =>
           S "Image: " ++ e.2.fileName ++ S " (uploaded " ++ e.2.timestamp ++ S ")"))) := by
  unfold getDocumentContext
  cases promptId with
  | some p =>
    have hp : p = tpid := by simpa using ht
    subst hp
    simp only [if_neg htne, if_pos hq, List.length_map, List.map_map]
    rfl
  | none =>
    have hcur : st.currentPromptId = some tpid := by simpa using ht
    simp only [hcur, if_neg htne, if_pos hq, List.length_map, List.map_map]
    rfl

/-- Witness for C6 at a concrete state: explicit prompt id, empty
registry, so the sentinel is returned. -/
theorem c6_all_images_witness :
    getDocumentContext (S "describe all images") (some (S "p"))
      { promptContexts := [], globalImageRegistry := [], currentPromptId := none }
      { documents := [], documentIndex := [] } = noImagesSentinel := by
  have h := c6_all_images_from_registry (S "describe all images") (some (S "p"))
    { promptContexts := [], globalImageRegistry := [], currentPromptId := none }
    { documents := [], documentIndex := [] } (S "p") (by decide) (by decide) (by decide)
  simpa using h

/-! ## Session-controller lemmas -/

theorem stopGeneration_chats (st : ChatSt) : (stopGeneration st).chats = st.chats := by
  unfold stopGeneration
  cases st.current <;> rfl

theorem aborted_mono_stop (st : ChatSt) (x : Nat) (hx : x ∈ st.aborted) :
    x ∈ (stopGeneration st).aborted := by
  unfold stopGeneration
  cases st.current with
  | none => exact hx
  | some h => exact List.mem_cons_of_mem _ hx

theorem aborted_mono_send (st : ChatSt) (content model : Str) (ir : Option Str)
    (fs : Option (List FileDesc)) (uid aid cid : Str) (hNew : Nat) (now : Str)
    (x : Nat) (hx : x ∈ st.aborted) :
    x ∈ (sendStart st content model ir fs uid aid cid hNew now).aborted := by
  unfold sendStart
  split
  · exact hx
  · cases hfind : st.chats.find? (fun c => decide (some c.id = st.activeChat)) with
    | some c1 =>
      simp only [hfind]
      exact aborted_mono_stop st x hx
    | none =>
      simp only [hfind]
      exact aborted_mono_stop st x hx

theorem aborted_mono_tok (st : ChatSt) (h : Nat) (chunk now : Str) (x : Nat)
    (hx : x ∈ st.aborted) : x ∈ (tokStep st h chunk now).aborted := by
  unfold tokStep
  cases hfind : st.gens.find? (fun g => decide (g.handle = h)) with
  | none =>
    simp only [hfind]
    exact hx
  | some g =>
    simp only [hfind]
    by_cases hm : h ∈ st.aborted
    · rw [if_pos hm]
      exact hx
    · rw [if_neg hm]
      exact hx

theorem aborted_mono_settle (st : ChatSt) (h : Nat) (resp : Option Str) (now : Str)
    (x : Nat) (hx : x ∈ st.aborted) : x ∈ (settleStep st h resp now).aborted := by
  unfold settleStep
  cases hfind : st.gens.find? (fun g => decide (g.handle = h)) with
  | none =>
    simp only [hfind]
    exact hx
  | some g =>
    simp only [hfind]
    cases resp with
    | none => exact hx
    | some r =>
      dsimp only
      by_cases hr : r = [] ∨ containsSub r (S "Error") = true
      · rw [if_pos hr]
        exact hx
      · rw [if_neg hr]
        exact hx

/-- No event removes a handle from the aborted set: once a signal is
aborted it stays aborted. -/
theorem aborted_mono_step (st : ChatSt) (ev : ChatEv) (x : Nat)
    (hx : x ∈ st.aborted) : x ∈ (stepEv st ev).aborted := by
  cases ev with
  | send content model ir fs uid aid cid h now =>
    exact aborted_mono_send st content model ir fs uid aid cid h now x hx
  | stop => exact aborted_mono_stop st x hx
  | tok h chunk now => exact aborted_mono_tok st h chunk now x hx
  | settle h resp now => exact aborted_mono_settle st h resp now x hx

theorem aborted_mono_run (st : ChatSt) (evs : List ChatEv) (x : Nat)
    (hx : x ∈ st.aborted) : x ∈ (runEvs st evs).aborted := by
  induction evs generalizing st with
  | nil => exact hx
  | cons e es ih =>
    simp only [runEvs, List.foldl_cons]
    exact ih (stepEv st e) (aborted_mono_step st e x hx)

/-- C1 as stated is false in its stop-clears-the-flag half:
`stopGeneration` aborts the controller and clears `isGenerating`, but
leaves the message list — including the placeholder's streaming flag —
untouched. -/
theorem c1_counterexample :
    (stopGeneration c1St).isGenerating = false ∧
    (stopGeneration c1St).current = none ∧
    (stopGeneration c1St).chats = c1St.chats ∧
    ((stopGeneration c1St).chats.map (fun c => c.messages.map (·.isStreaming))) = [[true]] := by
  refine ⟨by decide, by decide, by decide, by decide⟩

/-- C1 amended: (a) after the handle of a generation is in the aborted
set, every later-arriving token of that handle — under any further
interleaving of sends, stops, tokens and settlings — leaves the whole
hook state (in particular the message list) unchanged; (b)
`stopGeneration` on an active handle aborts it, clears `isGenerating`
immediately and discards the controller, while leaving the message
list (and hence the placeholder's streaming flag) unchanged until the
generation promise settles; (c) a new `sendMessage` that passes the
input guard supersedes the in-flight generation by aborting its handle
first. -/
theorem c1_token_drop_after_abort :
    (∀ (st : ChatSt) (tr : List ChatEv) (h : Nat) (chunk now : Str),
      h ∈ st.aborted →
      tokStep (runEvs st tr) h chunk now = runEvs st tr) ∧
    (∀ (st : ChatSt) (h : Nat), st.current = some h →
      h ∈ (stopGeneration st).aborted ∧
      (stopGeneration st).isGenerating = false ∧
      (stopGeneration st).current = none ∧
      (stopGeneration st).chats = st.chats) ∧
    (∀ (st : ChatSt) (content model : Str) (ir : Option Str)
      (fs : Option (List FileDesc)) (uid aid cid : Str) (hNew : Nat) (now : Str)
      (h : Nat), st.current = some h → jsTrim content ≠ [] → model ≠ [] →
      h ∈ (sendStart st content model ir fs uid aid cid hNew now).aborted) := by
  refine ⟨?_, ?_, ?_⟩
  · intro st tr h chunk now hx
    have hab : h ∈ (runEvs st tr).aborted := aborted_mono_run st tr h hx
    unfold tokStep
    cases hfind : (runEvs st tr).gens.find? (fun g => decide (g.handle = h)) with
    | none => simp only [hfind]
    | some g =>
      simp only [hfind]
      rw [if_pos hab]
  · intro st h hc
    unfold stopGeneration
    rw [hc]
    exact ⟨List.mem_cons_self _ _, rfl, rfl, rfl⟩
  · intro st content model ir fs uid aid cid hNew now h hc hcontent hmodel
    have habort : h ∈ (stopGeneration st).aborted := by
      unfold stopGeneration
      rw [hc]
      exact List.mem_cons_self _ _
    unfold sendStart
    rw [if_neg (not_or.mpr ⟨hcontent, hmodel⟩)]
    cases hfind : st.chats.find? (fun c => decide (some c.id = st.activeChat)) with
    | some c1 =>
      simp only [hfind]
      exact habort
    | none =>
      simp only [hfind]
      exact habort

/-- Witness for C1 at concrete states: a queued token for the aborted
handle 3 is dropped; stopping and superseding abort the active
handle. -/
theorem c1_token_drop_witness :
    tokStep (runEvs c1AbortedSt []) 3 (S "tok") (S "t1") = runEvs c1AbortedSt [] ∧
    (3 ∈ (stopGeneration c1St).aborted ∧
      (stopGeneration c1St).isGenerating = false ∧
      (stopGeneration c1St).current = none ∧
      (stopGeneration c1St).chats = c1St.chats) ∧
    3 ∈ (sendStart c1St (S "hello") (S "mdl") none none (S "u9") (S "a9") (S "c9") 4
          (S "t9")).aborted :=
  ⟨c1_token_drop_after_abort.1 c1AbortedSt [] 3 (S "tok") (S "t1") (by decide),
   c1_token_drop_after_abort.2.1 c1St 3 (by decide),
   c1_token_drop_after_abort.2.2 c1St (S "hello") (S "mdl") none none (S "u9") (S "a9")
     (S "c9") 4 (S "t9") 3 (by decide) (by decide) (by decide)⟩

/-- C8 as stated is false: a first message of exactly six words is not
truncated, yet the ellipsis is appended (`words.length === 6` also
holds when nothing was cut off). -/
theorem c8_counterexample :
    ((sendStart c8St0 (S "a b c d e f") (S "m") none none (S "u1") (S "a1") (S "c1") 0
        (S "t0")).chats.map (·.title)) = [S "a b c d e f..."] ∧
    S "a b c d e f..." ≠ S "a b c d e f" := by
  refine ⟨by decide, by decide⟩

/-- C8 amended: (a) `generateTitle` joins the first six pieces of the
trimmed content split on single spaces and appends an ellipsis exactly
when there are at least six pieces (not only when there are more than
six); (b) `sendMessage` never recomputes the title of a chat that
already has a message: that chat survives with its id and title
unchanged; (c) when the guard passes and no chat matches the active id,
the newly created chat ends up titled `generateTitle content`. -/
theorem c8_title_rule :
    (∀ content : Str, generateTitle content =
      joinWith (S " ") ((jsSplitCh ' ' (jsTrim content)).take 6) ++
        (if 6 ≤ (jsSplitCh ' ' (jsTrim content)).length then S "..." else [])) ∧
    (∀ (st : ChatSt) (content model : Str) (ir : Option Str)
      (fs : Option (List FileDesc)) (uid aid cid : Str) (hNew : Nat) (now : Str)
      (c0 : Chat), c0 ∈ st.chats → c0.messages ≠ [] →
      ∃ c ∈ (sendStart st content model ir fs uid aid cid hNew now).chats,
        c.id = c0.id ∧ c.title = c0.title) ∧
    (∀ (st : ChatSt) (content model : Str) (ir : Option Str)
      (fs : Option (List FileDesc)) (uid aid cid : Str) (hNew : Nat) (now : Str),
      ¬ (jsTrim content = [] ∨ model = []) →
      st.chats.find? (fun c => decide (some c.id = st.activeChat)) = none →
      ∃ c ∈ (sendStart st content model ir fs uid aid cid hNew now).chats,
        c.id = cid ∧ c.title = generateTitle content) := by
  refine ⟨?_, ?_, ?_⟩
  · intro content
    unfold generateTitle
    dsimp only
    by_cases h6 : 6 ≤ (jsSplitCh ' ' (jsTrim content)).length
    · rw [if_pos (show (List.take 6 (jsSplitCh ' ' (jsTrim content))).length = 6 by
        rw [List.length_take]; omega), if_pos h6]
    · rw [if_neg (show ¬ (List.take 6 (jsSplitCh ' ' (jsTrim content))).length = 6 by
        rw [List.length_take]; omega), if_neg h6]
  · intro st content model ir fs uid aid cid hNew now c0 hc0 hmsg
    unfold sendStart
    split
    · exact ⟨c0, hc0, rfl, rfl⟩
    · cases hfind : st.chats.find? (fun c => decide (some c.id = st.activeChat)) with
      | some c1 =>
        simp only [hfind]
        refine ⟨_, List.mem_map_of_mem _ ((stopGeneration_chats st).symm ▸ hc0), ?_⟩
        by_cases hcid : c0.id = c1.id
        · simp [hcid, List.length_eq_zero, hmsg]
        · simp [hcid]
      | none =>
        simp only [hfind]
        refine ⟨_, List.mem_map_of_mem _
          (List.mem_cons_of_mem _ ((stopGeneration_chats st).symm ▸ hc0)), ?_⟩
        by_cases hcid : c0.id = cid
        · simp [hcid, List.length_eq_zero, hmsg]
        · simp [hcid]
  · intro st content model ir fs uid aid cid hNew now hg hfind
    unfold sendStart
    rw [if_neg hg]
    simp only [hfind]
    exact ⟨_, List.mem_map_of_mem _ (List.mem_cons_self _ _), by simp, by simp⟩

/-- Witness for C8: the title formula on a two-word message, the
no-recompute rule on a chat that already holds a message, and the
fresh-chat title. -/
theorem c8_title_rule_witness :
    (generateTitle (S "one two") =
      joinWith (S " ") ((jsSplitCh ' ' (jsTrim (S "one two"))).take 6) ++
        (if 6 ≤ (jsSplitCh ' ' (jsTrim (S "one two"))).length then S "..." else [])) ∧
    (∃ c ∈ (sendStart c8St1 (S "second message") (S "m") none none (S "u2") (S "a2")
        (S "c2") 1 (S "t1")).chats, c.id = c8OldChat.id ∧ c.title = c8OldChat.title) ∧
    (∃ c ∈ (sendStart c8St0 (S "fresh words here") (S "m") none none (S "u3") (S "a3")
        (S "c3") 2 (S "t2")).chats, c.id = S "c3" ∧
        c.title = generateTitle (S "fresh words here")) :=
  ⟨c8_title_rule.1 (S "one two"),
   c8_title_rule.2.1 c8St1 (S "second message") (S "m") none none (S "u2") (S "a2")
     (S "c2") 1 (S "t1") c8OldChat (by decide) (by decide),
   c8_title_rule.2.2 c8St0 (S "fresh words here") (S "m") none none (S "u3") (S "a3")
     (S "c3") 2 (S "t2") (by decide) (by decide)⟩

/-- C10: when the generation promise resolves to an empty string or to
any text containing the substring "Error", `sendMessage` routes the
turn through its error path: the placeholder assistant message's
content is replaced by the fixed apology string and its streaming flag
is cleared — even when the resolved text was a legitimate answer that
merely mentioned "Error". -/
theorem c10_error_substring_discards_response (st : ChatSt) (h : Nat) (g : GenRec)
    (resp now : Str)
    (hg : st.gens.find? (fun g' => decide (g'.handle = h)) = some g)
    (hr : resp = [] ∨ containsSub resp (S "Error") = true) :
    ∀ c ∈ (settleStep st h (some resp) now).chats, c.id = g.chatId →
      ∀ m ∈ c.messages, m.id = g.msgId →
        m.content = apologyMessage ∧ m.isStreaming = false := by
  unfold settleStep
  rw [hg]
  dsimp only
  rw [if_pos hr]
  intro c hc hcid m hm hmid
  unfold finalizeMsg at hc
  dsimp only at hc
  rcases List.mem_map.mp hc with ⟨c0, hc0, rfl⟩
  by_cases hc0id : c0.id = g.chatId
  · rw [if_pos hc0id] at hm
    dsimp only at hm
    rcases List.mem_map.mp hm with ⟨m0, hm0, rfl⟩
    by_cases hm0id : m0.id = g.msgId
    · rw [if_pos hm0id]
      exact ⟨rfl, rfl⟩
    · rw [if_neg hm0id] at hmid
      exact absurd hmid hm0id
  · rw [if_neg hc0id] at hcid
    exact absurd hcid hc0id

/-- Witness for C10: a resolved answer that merely mentions "Error" is
replaced by the apology and its streaming flag cleared. -/
theorem c10_error_substring_witness :
    c10MsgAfter.content = apologyMessage ∧ c10MsgAfter.isStreaming = false :=
  c10_error_substring_discards_response c10St 7
    { handle := 7, chatId := S "c", msgId := S "m1", acc := S "partial" }
    c10Resp (S "t2") (by decide) (by decide) c10ChatAfter (by decide) (by decide)
    c10MsgAfter (by decide) (by decide)

/-! ## Search (C2) -/

theorem scoredResults_snd (st : DocState) (qws : List Str) :
    ∀ p ∈ scoredResults st qws, p.2 = chunkScore qws p.1 ∧ 0 < p.2 := by
  intro p hp
  unfold scoredResults at hp
  rcases List.mem_flatten.mp hp with ⟨l, hl, hpl⟩
  rcases List.mem_map.mp hl with ⟨e, _he, rfl⟩
  rcases List.mem_filterMap.mp hpl with ⟨ch, _hch, hres⟩
  dsimp only at hres
  by_cases hs : 0 < chunkScore qws ch
  · rw [if_pos hs] at hres
    cases hres
    exact ⟨rfl, hs⟩
  · rw [if_neg hs] at hres
    cases hres

theorem insertScored_perm (x : DocumentChunk × Nat) (l : List (DocumentChunk × Nat)) :
    (insertScored x l).Perm (x :: l) := by
  induction l with
  | nil => exact List.Perm.refl _
  | cons y ys ih =>
    unfold insertScored
    by_cases h : x.2 < y.2
    · rw [if_pos h]
      exact (ih.cons y).trans (List.Perm.swap x y ys)
    · rw [if_neg h]

theorem sortScored_perm (l : List (DocumentChunk × Nat)) : (sortScored l).Perm l := by
  induction l with
  | nil => exact List.Perm.refl _
  | cons x xs ih =>
    exact (insertScored_perm x (sortScored xs)).trans (ih.cons x)

theorem insertScored_sorted (x : DocumentChunk × Nat) {l : List (DocumentChunk × Nat)}
    (hl : l.Pairwise (fun a b => b.2 ≤ a.2)) :
    (insertScored x l).Pairwise (fun a b => b.2 ≤ a.2) := by
  induction l with
  | nil => exact List.pairwise_singleton _ _
  | cons y ys ih =>
    rcases List.pairwise_cons.mp hl with ⟨hy, hys⟩
    unfold insertScored
    by_cases h : x.2 < y.2
    · rw [if_pos h]
      refine List.pairwise_cons.mpr ⟨?_, ih hys⟩
      intro z hz
      rcases List.mem_cons.mp ((insertScored_perm x ys).mem_iff.mp hz) with rfl | hz'
      · exact le_of_lt h
      · exact hy z hz'
    · rw [if_neg h]
      refine List.pairwise_cons.mpr ⟨?_, hl⟩
      intro z hz
      rcases List.mem_cons.mp hz with rfl | hz'
      · omega
      · exact le_trans (hy z hz') (by omega)

theorem sortScored_sorted (l : List (DocumentChunk × Nat)) :
    (sortScored l).Pairwise (fun a b => b.2 ≤ a.2) := by
  induction l with
  | nil => exact List.Pairwise.nil
  | cons x xs ih => exact insertScored_sorted x ih

theorem insertScored_filter (x : DocumentChunk × Nat) (l : List (DocumentChunk × Nat))
    (s : Nat) :
    (insertScored x l).filter (fun p => decide (p.2 = s)) =
      (x :: l).filter (fun p => decide (p.2 = s)) := by
  induction l with
  | nil => rfl
  | cons y ys ih =>
    unfold insertScored
    by_cases h : x.2 < y.2
    · rw [if_pos h]
      by_cases hx : x.2 = s
      · by_cases hy : y.2 = s
        · exact absurd h (by omega)
        · simp [List.filter_cons, ih, hx, hy]
      · by_cases hy : y.2 = s
        · simp [List.filter_cons, ih, hx, hy]
        · simp [List.filter_cons, ih, hx, hy]
    · rw [if_neg h]

theorem sortScored_filter (l : List (DocumentChunk × Nat)) (s : Nat) :
    (sortScored l).filter (fun p => decide (p.2 = s)) =
      l.filter (fun p => decide (p.2 = s)) := by
  induction l with
  | nil => rfl
  | cons x xs ih =>
    unfold sortScored
    rw [insertScored_filter]
    simp only [List.filter_cons, ih]

theorem scoredResults_of_no_tokens (st : DocState) : scoredResults st [] = [] := by
  unfold scoredResults
  rw [List.flatten_eq_nil_iff]
  intro l hl
  rcases List.mem_map.mp hl with ⟨e, _he, rfl⟩
  rw [List.filterMap_eq_nil_iff]
  intro ch _hch
  dsimp only
  rw [if_neg (by simp [chunkScore])]

/-- C2: `searchDocuments(query, k)` returns at most `k` chunks; every
returned chunk scores at least one and its lower-cased text contains
some query token (lower-cased word-run of the query longer than two
characters) as a literal substring; zero-scoring chunks are excluded;
the returned chunks are in descending score order, with equal-score
chunks kept in encounter order (the stable sort leaves every
equal-score band exactly as it occurs in the scored scan); and a query
with no token longer than two characters returns the empty list. -/
theorem c2_search_spec (st : DocState) (query : Str) (k : Nat) :
    (searchDocuments st query k).length ≤ k ∧
    (∀ c ∈ searchDocuments st query k, 1 ≤ chunkScore (wordTokens 2 query) c) ∧
    (∀ c ∈ searchDocuments st query k, ∃ w ∈ wordTokens 2 query,
      2 < w.length ∧ containsSub (toLowerStr c.content) w = true) ∧
    (searchDocuments st query k).Pairwise
      (fun a b => chunkScore (wordTokens 2 query) b ≤ chunkScore (wordTokens 2 query) a) ∧
    (∀ s : Nat,
      (sortScored (scoredResults st (wordTokens 2 query))).filter (fun p => decide (p.2 = s)) =
        (scoredResults st (wordTokens 2 query)).filter (fun p => decide (p.2 = s))) ∧
    (wordTokens 2 query = [] → searchDocuments st query k = []) := by
  have hmem : ∀ c ∈ searchDocuments st query k,
      ∃ p ∈ scoredResults st (wordTokens 2 query), p.1 = c ∧ 0 < p.2 ∧
        p.2 = chunkScore (wordTokens 2 query) p.1 := by
    intro c hc
    unfold searchDocuments at hc
    rcases List.mem_map.mp hc with ⟨p, hp, rfl⟩
    have hp' : p ∈ sortScored (scoredResults st (wordTokens 2 query)) :=
      List.take_subset _ _ hp
    have hp'' : p ∈ scoredResults st (wordTokens 2 query) :=
      (sortScored_perm _).mem_iff.mp hp'
    rcases scoredResults_snd st (wordTokens 2 query) p hp'' with ⟨heq, hpos⟩
    exact ⟨p, hp'', rfl, hpos, heq⟩
  refine ⟨?_, ?_, ?_, ?_, fun s => sortScored_filter _ s, ?_⟩
  · unfold searchDocuments
    rw [List.length_map, List.length_take]
    exact min_le_left _ _
  · intro c hc
    rcases hmem c hc with ⟨p, _hp, rfl, hpos, heq⟩
    omega
  · intro c hc
    rcases hmem c hc with ⟨p, _hp, rfl, hpos, heq⟩
    have hscore : 0 < chunkScore (wordTokens 2 query) p.1 := by omega
    rcases List.countP_pos_iff.mp hscore with ⟨w, hw, hww⟩
    refine ⟨w, hw, ?_, hww⟩
    have hw2 : w ∈ wordRunsAux [] (toLowerStr query) ∧ 2 < w.length := by
      simpa [wordTokens] using hw
    exact hw2.2
  · unfold searchDocuments
    rw [List.pairwise_map]
    refine List.Pairwise.imp_of_mem ?_
      (((sortScored_sorted (scoredResults st (wordTokens 2 query)))).sublist
        (List.take_sublist _ _))
    intro a b ha hb hab
    have ha' := scoredResults_snd st (wordTokens 2 query) a
      ((sortScored_perm _).mem_iff.mp (List.take_subset _ _ ha))
    have hb' := scoredResults_snd st (wordTokens 2 query) b
      ((sortScored_perm _).mem_iff.mp (List.take_subset _ _ hb))
    omega
  · intro hq
    unfold searchDocuments
    rw [hq, scoredResults_of_no_tokens]
    simp [sortScored]

/-- Witness for C2 at a concrete store and query. -/
theorem c2_search_spec_witness :
    (searchDocuments c2Store (S "the Fox!") 2).length ≤ 2 ∧
    (∀ c ∈ searchDocuments c2Store (S "the Fox!") 2,
      1 ≤ chunkScore (wordTokens 2 (S "the Fox!")) c) ∧
    (∀ c ∈ searchDocuments c2Store (S "the Fox!") 2, ∃ w ∈ wordTokens 2 (S "the Fox!"),
      2 < w.length ∧ containsSub (toLowerStr c.content) w = true) ∧
    (searchDocuments c2Store (S "the Fox!") 2).Pairwise
      (fun a b => chunkScore (wordTokens 2 (S "the Fox!")) b ≤
        chunkScore (wordTokens 2 (S "the Fox!")) a) ∧
    (∀ s : Nat,
      (sortScored (scoredResults c2Store (wordTokens 2 (S "the Fox!")))).filter
          (fun p => decide (p.2 = s)) =
        (scoredResults c2Store (wordTokens 2 (S "the Fox!"))).filter
          (fun p => decide (p.2 = s))) ∧
    (wordTokens 2 (S "the Fox!") = [] → searchDocuments c2Store (S "the Fox!") 2 = []) :=
  c2_search_spec c2Store (S "the Fox!") 2

/-! ## Chunking-loop lemmas (C4) -/

theorem splitWinGo_length_le (t : Str) (cs co : Int) :
    ∀ (fuel : Nat) (s : Int), (splitWinGo t cs co s fuel).length ≤ fuel := by
  intro fuel
  induction fuel with
  | zero => intro s; simp [splitWinGo]
  | succ f ih =>
    intro s
    simp only [splitWinGo]
    split
    · rw [List.length_cons]
      split
      · simp
      · exact Nat.succ_le_succ (ih _)
    · simp

theorem splitWinGo_end_le (t : Str) (cs co : Int) :
    ∀ (fuel : Nat) (s : Int), ∀ w ∈ splitWinGo t cs co s fuel, w.2 ≤ (t.length : Int) := by
  intro fuel
  induction fuel with
  | zero => intro s w hw; simp [splitWinGo] at hw
  | succ f ih =>
    intro s w hw
    simp only [splitWinGo] at hw
    by_cases hs : s < (t.length : Int)
    · rw [if_pos hs] at hw
      rcases List.mem_cons.mp hw with rfl | hw'
      · exact min_le_right _ _
      · by_cases hb : (t.length : Int) ≤ nextStart t cs co s
        · rw [if_pos hb] at hw'
          cases hw'
        · rw [if_neg hb] at hw'
          exact ih _ w hw'
    · rw [if_neg hs] at hw
      cases hw

theorem splitWindows_end_le (text : Str) (cs0 co0 : Int) :
    ∀ w ∈ splitWindows text cs0 co0, w.2 ≤ ((jsTrunc text).length : Int) := by
  unfold splitWindows
  by_cases h : text.length = 0
  · rw [if_pos h]
    intro w hw
    cases hw
  · rw [if_neg h]
    exact splitWinGo_end_le (jsTrunc text) _ _ _ 0

theorem le_ceilN_mul (a b : Nat) (hb : 0 < b) : a ≤ ceilN a b * b := by
  rcases Nat.eq_zero_or_pos a with rfl | ha
  · simp
  · have hq : ceilN a b = (a - 1) / b + 1 := by
      unfold ceilN
      rw [show a + b - 1 = (a - 1) + b by omega, Nat.add_div_right _ hb]
    have h1 := Nat.div_add_mod (a - 1) b
    have h2 : (a - 1) % b < b := Nat.mod_lt _ hb
    rw [hq, Nat.add_mul, one_mul, Nat.mul_comm]
    generalize hP : b * ((a - 1) / b) = P at h1 ⊢
    omega

theorem ceilN_mono (a a' b : Nat) (h : a ≤ a') : ceilN a b ≤ ceilN a' b :=
  Nat.div_le_div_right (by omega)

theorem jsTrim_ne_nil {l : Str} {x : Char} (hx : x ∈ l) (hxw : isJsWs x = false) :
    jsTrim l ≠ [] := by
  unfold jsTrim
  intro hnil
  rw [List.reverse_eq_nil_iff, List.dropWhile_eq_nil_iff] at hnil
  have hx1 : x ∈ l.dropWhile isJsWs := by
    have hsplit : l.takeWhile isJsWs ++ l.dropWhile isJsWs = l :=
      List.takeWhile_append_dropWhile isJsWs l
    rcases List.mem_append.mp (by rw [hsplit]; exact hx) with htk | hdp
    · exact absurd (List.mem_takeWhile_imp htk) (by rw [hxw]; exact Bool.false_ne_true)
    · exact hdp
  have hx2 : x ∈ (l.dropWhile isJsWs).reverse := List.mem_reverse.mpr hx1
  have := hnil x hx2
  rw [hxw] at this
  cases this

theorem jsSliceI_getD_mem (t : Str) (s e i : Nat) (hs : s ≤ i) (hie : i < e)
    (he : e ≤ t.length) :
    t.getD i ' ' ∈ jsSliceI t (s : Int) (e : Int) := by
  unfold jsSliceI jsIdx
  rw [if_neg (by omega), if_neg (by omega), Int.toNat_natCast, Int.toNat_natCast,
    min_eq_left he, min_eq_left (by omega)]
  have hi : i < t.length := lt_of_lt_of_le hie he
  rw [List.getD_eq_getElem t ' ' hi]
  have hlen : i - s < ((t.take e).drop s).length := by
    rw [List.length_drop, List.length_take]
    omega
  have heq : ((t.take e).drop s)[i - s] = t[i] := by
    rw [List.getElem_drop, List.getElem_take]
    congr 1
    omega
  exact heq ▸ List.getElem_mem hlen

/-- The coverage induction: from a non-negative start position `s`, as
long as the remaining fuel suffices to walk to the end of the text
(`t.length ≤ s + fuel · step`), every non-whitespace character at
position `i ≥ s` falls into some visited window whose trimmed slice is
pushed to the output. -/
theorem splitCover_go (t : Str) (cs co : Int) (h100 : 100 ≤ cs) (hcs : cs ≤ 5000)
    (hco0 : 0 ≤ co) (hco2 : 2 * co ≤ cs) :
    ∀ (fuel : Nat) (s i : Nat), s ≤ i → i < t.length →
      t.length ≤ s + fuel * (cs - co).toNat →
      isJsWs (t.getD i ' ') = false →
      ∃ w ∈ splitWinGo t cs co (s : Int) fuel,
        0 ≤ w.1 ∧ w.1 ≤ (i : Int) ∧ (i : Int) < w.2 ∧
        0 < (jsTrim (jsSliceI t w.1 w.2)).length ∧
        jsTrim (jsSliceI t w.1 w.2) ∈ splitTextGo t cs co (s : Int) fuel := by
  intro fuel
  induction fuel with
  | zero =>
    intro s i hsi hi hbud hws
    exact absurd hi (by omega)
  | succ f ih =>
    intro s i hsi hi hbud hws
    have hcsN : ((cs.toNat : Nat) : Int) = cs := Int.toNat_of_nonneg (by omega)
    have hcoN : ((co.toNat : Nat) : Int) = co := Int.toNat_of_nonneg hco0
    have hstepN : (cs - co).toNat = cs.toNat - co.toNat := by omega
    have hslt : (s : Int) < (t.length : Int) := by exact_mod_cast lt_of_le_of_lt hsi hi
    have hwinEnd : winEnd t cs (s : Int) = ((min (s + cs.toNat) t.length : Nat) : Int) := by
      unfold winEnd
      rw [Nat.cast_min]
      push_cast
      rw [hcsN]
    by_cases hie : i < min (s + cs.toNat) t.length
    · have hchunk : t.getD i ' ' ∈ jsSliceI t (s : Int) (winEnd t cs (s : Int)) := by
        rw [hwinEnd]
        exact jsSliceI_getD_mem t s (min (s + cs.toNat) t.length) i hsi hie
          (min_le_right _ _)
      have hpos := List.length_pos.mpr (jsTrim_ne_nil hchunk hws)
      refine ⟨((s : Int), winEnd t cs (s : Int)), ?_, ?_, ?_, ?_, ?_, ?_⟩
      · simp only [splitWinGo]
        rw [if_pos hslt]
        exact List.mem_cons_self _ _
      · show (0 : Int) ≤ (s : Int)
        positivity
      · show (s : Int) ≤ (i : Int)
        exact_mod_cast hsi
      · show (i : Int) < winEnd t cs (s : Int)
        rw [hwinEnd]
        exact_mod_cast hie
      · show 0 < (jsTrim (jsSliceI t (s : Int) (winEnd t cs (s : Int)))).length
        exact hpos
      · show jsTrim (jsSliceI t (s : Int) (winEnd t cs (s : Int))) ∈
          splitTextGo t cs co (s : Int) (f + 1)
        simp only [splitTextGo]
        rw [if_pos hslt, if_pos hpos]
        exact List.mem_cons_self _ _
    · push_neg at hie
      have hEl : min (s + cs.toNat) t.length < t.length := lt_of_le_of_lt hie hi
      have hEeq : min (s + cs.toNat) t.length = s + cs.toNat := by omega
      have hcond : ¬ (winEnd t cs (s : Int) - co ≤ winEnd t cs (s : Int) - cs ∧
          winEnd t cs (s : Int) < (t.length : Int)) := by
        rintro ⟨hc1, _⟩
        omega
      have hnext : nextStart t cs co (s : Int) = ((s + (cs.toNat - co.toNat) : Nat) : Int) := by
        unfold nextStart
        dsimp only
        rw [if_neg hcond, hwinEnd, hEeq]
        push_cast
        omega
      have hbreak : ¬ ((t.length : Int) ≤ nextStart t cs co (s : Int)) := by
        rw [hnext]
        push_cast
        omega
      rw [Nat.succ_mul] at hbud
      obtain ⟨w, hwmem, hw0, hwi1, hwi2, hwpos, hwtext⟩ :=
        ih (s + (cs.toNat - co.toNat)) i (by omega) hi (by omega) hws
      refine ⟨w, ?_, hw0, hwi1, hwi2, hwpos, ?_⟩
      · simp only [splitWinGo]
        rw [if_pos hslt, if_neg hbreak, hnext]
        exact List.mem_cons_of_mem _ hwmem
      · simp only [splitTextGo]
        rw [if_pos hslt, if_neg hbreak, hnext]
        split
        · exact List.mem_cons_of_mem _ hwtext
        · exact hwtext

/-- C4 amended: within the clamped parameter ranges and for non-empty
text, the loop visits at most `⌈L/(size−overlap)⌉ + 10` windows (its
iteration counter is capped there by construction, so it terminates),
and — provided the text does not exceed the 1 MiB truncation cap —
every non-whitespace character of the input lies in a visited window
whose trimmed slice is among the returned segments. -/
theorem c4_chunking_bounds_and_coverage (text : Str) (cs co : Int)
    (h100 : 100 ≤ cs) (hcs : cs ≤ 5000) (hco0 : 0 ≤ co) (hco2 : 2 * co ≤ cs)
    (hne : text ≠ []) :
    (splitWindows text cs co).length ≤ ceilN text.length (cs - co).toNat + 10 ∧
    (text.length ≤ truncLimit → coversInput text cs co) := by
  have hlen0 : ¬ (text.length = 0) := fun h => hne (List.length_eq_zero.mp h)
  have hclampCs : clampCs cs = cs := by unfold clampCs; omega
  have hclampCo : clampCo cs co = co := by
    unfold clampCo
    have hdiv2 : co ≤ cs / 2 := by omega
    omega
  constructor
  · simp only [splitWindows, if_neg hlen0, hclampCs, hclampCo]
    refine le_trans (splitWinGo_length_le _ _ _ _ _) ?_
    have hlen_le : (jsTrunc text).length ≤ text.length := by
      unfold jsTrunc
      split
      · rw [List.length_take]
        omega
      · exact le_refl _
    exact Nat.add_le_add_right (ceilN_mono _ _ _ hlen_le) 10
  · intro hlim
    have htr : jsTrunc text = text := by
      unfold jsTrunc
      rw [if_neg (by omega)]
    intro i hi hws
    have hstep_pos : 0 < (cs - co).toNat := by omega
    have hceil := le_ceilN_mul text.length (cs - co).toNat hstep_pos
    have hbud : text.length ≤
        0 + (ceilN text.length (cs - co).toNat + 10) * (cs - co).toNat := by
      rw [Nat.add_mul]
      generalize hP : ceilN text.length (cs - co).toNat * (cs - co).toNat = P at hceil ⊢
      omega
    obtain ⟨w, hwmem, h0, h1, h2, hpos, htext⟩ :=
      splitCover_go text cs co h100 hcs hco0 hco2
        (ceilN text.length (cs - co).toNat + 10) 0 i (Nat.zero_le _) hi hbud hws
    refine ⟨w, ?_, h0, h1, h2, ?_⟩
    · simp only [splitWindows, if_neg hlen0, hclampCs, hclampCo, htr]
      simpa using hwmem
    · rw [htr]
      simp only [splitText, if_neg hlen0, hclampCs, hclampCo, htr]
      refine List.mem_filter.mpr ⟨?_, decide_eq_true hpos⟩
      simpa using htext

/-- C4 as stated is false for inputs beyond the 1 MiB cap: the
parameters are inside the clamped ranges and the text is non-empty,
yet its final (non-whitespace) character is covered by no window —
`splitText` silently truncates to the first 2^20 characters. -/
theorem c4_counterexample :
    (100 ≤ (1000 : Int) ∧ (1000 : Int) ≤ 5000 ∧ 0 ≤ (200 : Int) ∧
      2 * (200 : Int) ≤ 1000 ∧ overLimitText ≠ []) ∧
    ¬ coversInput overLimitText 1000 200 := by
  have hlen : overLimitText.length = truncLimit + 1 := by
    simp [overLimitText]
  refine ⟨⟨by norm_num, by norm_num, by norm_num, by norm_num, ?_⟩, ?_⟩
  · intro h
    rw [h] at hlen
    simp [truncLimit] at hlen
  · intro hcov
    have hchar : overLimitText.getD truncLimit ' ' = 'a' := by
      have hlt : truncLimit < overLimitText.length := by omega
      rw [List.getD_eq_getElem _ _ hlt]
      simp [overLimitText]
    obtain ⟨w, hwmem, _h0, _h1, h2, _⟩ := hcov truncLimit (by omega) (by rw [hchar]; decide)
    have hend := splitWindows_end_le overLimitText 1000 200 w hwmem
    have htlen : (jsTrunc overLimitText).length = truncLimit := by
      unfold jsTrunc
      rw [if_pos (by omega), List.length_take]
      omega
    rw [htlen] at hend
    omega

/-- Witness for C4 at a concrete in-range input. -/
theorem c4_chunking_witness :
    (splitWindows (S "hello world") 1000 200).length ≤
      ceilN (S "hello world").length ((1000 : Int) - 200).toNat + 10 ∧
    ((S "hello world").length ≤ truncLimit → coversInput (S "hello world") 1000 200) :=
  c4_chunking_bounds_and_coverage (S "hello world") 1000 200 (by norm_num) (by norm_num)
    (by norm_num) (by norm_num) (by decide)
